import Mathlib

set_option linter.unusedVariables false

/-!
Verification of the tbert run_classifier script (src/tbert/cli/run_classifier.py):
dataset readers, label vocabulary, gradient-accumulation training loop,
evaluation aggregation, and the startup/checkpoint control flow, shallowly
embedded from the Python source.
-/

namespace RunClassifier

/-- A raw tab-separated row, as produced by the csv reader in _read_tsv. -/
abbrev Row := List String

/-- A canonical example yielded by a dataset reader: guid, text_a, optional
text_b, and the label index obtained from the label vocabulary. -/
structure Example where
  guid : String
  textA : String
  textB : Option String
  labelId : Nat
deriving DecidableEq

/-- Single-quote character (code point 39), used by the Python repr of strings
inside error messages. -/
def squote : String := String.singleton (Char.ofNat 39)

/-- Python repr of a string: the string wrapped in single quotes. -/
def pyRepr (s : String) : String := squote ++ s ++ squote

/-- Python list subscript line[i]: IndexError when out of range. -/
def pyGet (l : List String) (i : Nat) : Except String String :=
  match l.get? i with
  | some x => .ok x
  | none => .error "IndexError: list index out of range"

/-- Python subscript line[-1]: the last element, IndexError on an empty list. -/
def pyGetLast (l : List String) : Except String String :=
  match l.getLast? with
  | some x => .ok x
  | none => .error "IndexError: list index out of range"

/-- label_vocab built by the dict comprehension over enumerate(labels) in the
main block: an association list of (label, index) pairs, in insertion order. -/
def label_vocab (labels : List String) : List (String × Nat) :=
  labels.enum.map (fun p => (p.2, p.1))

/-- Python dict lookup over the association list: the last binding wins. -/
def dictLookup (d : List (String × Nat)) (k : String) : Option Nat :=
  (d.reverse.find? (fun p => p.1 == k)).map (fun p => p.2)

/-- Python dict subscript d[k]: KeyError when the key is absent. -/
def dictGet (d : List (String × Nat)) (k : String) : Except String Nat :=
  match dictLookup d k with
  | some v => .ok v
  | none => .error ("KeyError: " ++ pyRepr k)

/-- Declared labels of the xnli problem (from _PROBLEMS). -/
def xnli_labels : List String := ["contradiction", "entailment", "neutral"]

/-- Declared labels of the mnli problem (from _PROBLEMS). -/
def mnli_labels : List String := ["contradiction", "entailment", "neutral"]

/-- Declared labels of the mrpc problem (from _PROBLEMS). -/
def mrpc_labels : List String := ["0", "1"]

/-- Declared labels of the cola problem (from _PROBLEMS). -/
def cola_labels : List String := ["0", "1"]

/-- The label list _PROBLEMS[name]["labels"], none for an unknown problem. -/
def problem_labels (name : String) : Option (List String) :=
  if name = "xnli" then some xnli_labels
  else if name = "mnli" then some mnli_labels
  else if name = "mrpc" then some mrpc_labels
  else if name = "cola" then some cola_labels
  else none

/-- The label vocabulary of the xnli problem. -/
def xnli_vocab : List (String × Nat) := label_vocab xnli_labels

/-- The label vocabulary of the mnli problem. -/
def mnli_vocab : List (String × Nat) := label_vocab mnli_labels

/-- The label vocabulary of the mrpc problem. -/
def mrpc_vocab : List (String × Nat) := label_vocab mrpc_labels

/-- The label vocabulary of the cola problem. -/
def cola_vocab : List (String × Nat) := label_vocab cola_labels

/-- Decides the label-vocabulary round trip for one label list: every declared
label looks up to an index at which the declared sequence holds that very
label, the index is in range, and the index of the label at position i is
exactly i (the indices are exactly the positions of the declared sequence). -/
def labelRoundTripB (labels : List String) : Bool :=
  (labels.enum.all fun p =>
    match dictLookup (label_vocab labels) p.2 with
    | some i => (labels.get? i == some p.2) && decide (i < labels.length)
    | none => false)
  && (labels.enum.all fun p => dictLookup (label_vocab labels) p.2 == some p.1)

/-- Lifts the round-trip check over the optional result of problem_labels:
an unknown problem name has nothing to check. -/
def problemRoundTripB (o : Option (List String)) : Bool :=
  match o with
  | none => true
  | some labels => labelRoundTripB labels

/-- The observable behavior of a generator-based reader: the examples yielded
before termination, and the error that aborted the stream, if any. -/
abbrev RStream := List Example × Option String

/-- Drives one generator body over the enumerated rows. The row handler
returns none to skip the row (continue), or the yielded example / raised
error for that row. An error aborts the stream at that point. -/
def runRows (f : Nat × Row → Option (Except String Example)) :
    List (Nat × Row) → RStream
  | [] => ([], none)
  | r :: rest =>
    match f r with
    | none => runRows f rest
    | some (.error e) => ([], some e)
    | some (.ok ex) =>
      let t := runRows f rest
      (ex :: t.1, t.2)

/-- The ValueError message raised for an unsupported partition argument,
formatted with percent-r as in the source. -/
def noSuchPartition (p : String) : String :=
  "no such partition in this dataset: " ++ pyRepr p

/-- The label remap performed by the xnli train branch: the source spelling
contradictory becomes the canonical contradiction. -/
def canonXnliLabel (s : String) : String :=
  if s = "contradictory" then "contradiction" else s

/-- One row of the xnli train branch of _xnli_reader: skip the header row,
read columns 0, 1, 2, remap the label spelling, and look it up. -/
def xnli_train_row (vocab : List (String × Nat)) :
    Nat × Row → Option (Except String Example)
  | (i, line) =>
    if i = 0 then none
    else some (do
      let textA ← pyGet line 0
      let textB ← pyGet line 1
      let rawLabel ← pyGet line 2
      let lid ← dictGet vocab (canonXnliLabel rawLabel)
      Except.ok (Example.mk ("train-" ++ toString i) textA (some textB) lid))

/-- One row of the xnli dev branch of _xnli_reader: skip the header row,
keep only rows whose column 0 equals the language tag, read columns 6, 7
for the texts and column 1 for the label, with no remapping. -/
def xnli_dev_row (vocab : List (String × Nat)) (lang : String) :
    Nat × Row → Option (Except String Example)
  | (i, line) =>
    if i = 0 then none
    else
      match pyGet line 0 with
      | .error e => some (.error e)
      | .ok l0 =>
        if l0 = lang then
          some (do
            let textA ← pyGet line 6
            let textB ← pyGet line 7
            let rawLabel ← pyGet line 1
            let lid ← dictGet vocab rawLabel
            Except.ok (Example.mk ("dev-" ++ toString i) textA (some textB) lid))
        else none

/-- _xnli_reader: dispatch on the partition; rows is the content of the file
that the selected partition reads. Unsupported partitions raise ValueError. -/
def xnli_reader (vocab : List (String × Nat)) (rows : List Row)
    (partition lang : String) : RStream :=
  if partition = "train" then runRows (xnli_train_row vocab) rows.enum
  else if partition = "dev" then runRows (xnli_dev_row vocab lang) rows.enum
  else ([], some (noSuchPartition partition))

/-- One row of _mnli_reader: skip the header row; guid from column 0, texts
from columns 8 and 9; the label is the constant contradiction for the test
partition and the last column otherwise. -/
def mnli_row (vocab : List (String × Nat)) (partition : String) :
    Nat × Row → Option (Except String Example)
  | (i, line) =>
    if i = 0 then none
    else some (do
      let rowId ← pyGet line 0
      let textA ← pyGet line 8
      let textB ← pyGet line 9
      let rawLabel ← if partition = "test" then Except.ok "contradiction" else pyGetLast line
      let lid ← dictGet vocab rawLabel
      Except.ok (Example.mk (partition ++ "-" ++ rowId) textA (some textB) lid))

/-- _mnli_reader: the filename dict supports train, dev and test; any other
partition raises ValueError before any row is read. -/
def mnli_reader (vocab : List (String × Nat)) (rows : List Row)
    (partition : String) : RStream :=
  if partition = "train" ∨ partition = "dev" ∨ partition = "test" then
    runRows (mnli_row vocab partition) rows.enum
  else ([], some (noSuchPartition partition))

/-- One row of _mrpc_reader: skip the header row; texts from columns 3 and 4;
the label is the constant 0 for the test partition and column 0 otherwise. -/
def mrpc_row (vocab : List (String × Nat)) (partition : String) :
    Nat × Row → Option (Except String Example)
  | (i, line) =>
    if i = 0 then none
    else some (do
      let textA ← pyGet line 3
      let textB ← pyGet line 4
      let rawLabel ← if partition = "test" then Except.ok "0" else pyGet line 0
      let lid ← dictGet vocab rawLabel
      Except.ok (Example.mk (partition ++ "-" ++ toString i) textA (some textB) lid))

/-- _mrpc_reader: the filename dict supports train, dev and test; any other
partition raises ValueError before any row is read. -/
def mrpc_reader (vocab : List (String × Nat)) (rows : List Row)
    (partition : String) : RStream :=
  if partition = "train" ∨ partition = "dev" ∨ partition = "test" then
    runRows (mrpc_row vocab partition) rows.enum
  else ([], some (noSuchPartition partition))

/-- One row of _cola_reader: the header row is skipped only for the test
partition; for test the label is the constant 0 and the text is column 1,
otherwise the label is column 1 and the text is column 3; text_b is None. -/
def cola_row (vocab : List (String × Nat)) (partition : String) :
    Nat × Row → Option (Except String Example)
  | (i, line) =>
    if partition = "test" ∧ i = 0 then none
    else if partition = "test" then
      some (do
        let textA ← pyGet line 1
        let lid ← dictGet vocab "0"
        Except.ok (Example.mk (partition ++ "-" ++ toString i) textA none lid))
    else
      some (do
        let rawLabel ← pyGet line 1
        let textA ← pyGet line 3
        let lid ← dictGet vocab rawLabel
        Except.ok (Example.mk (partition ++ "-" ++ toString i) textA none lid))

/-- _cola_reader: the filename dict supports train, dev and test; any other
partition raises ValueError before any row is read. -/
def cola_reader (vocab : List (String × Nat)) (rows : List Row)
    (partition : String) : RStream :=
  if partition = "train" ∨ partition = "dev" ∨ partition = "test" then
    runRows (cola_row vocab partition) rows.enum
  else ([], some (noSuchPartition partition))

/-- Replace the label column (index 2) of an xnli train row by its canonical
spelling; a row without a label column is unchanged. -/
def canonTrainRow (r : Row) : Row := r.set 2 (canonXnliLabel (r.getD 2 ""))

/-!
## Training loop state machine (do_train block)

A micro-batch is identified by a natural number. The gradient is modeled as
the list of micro-batch identifiers whose backward pass contributed to it
since the last zero_grad; an optimizer step records the gradient it applied.
-/

/-- State of the gradient-accumulation loop: the accumulation counter
batch_count, the gradient contents accumulated since the last zero_grad, and
the log of optimizer steps (each recording the gradient it applied). -/
structure TrainState where
  batchCount : Nat
  grad : List Nat
  steps : List (List Nat)
deriving DecidableEq

/-- One micro-batch of the inner training loop: zero_grad when the counter is
0, backward accumulates the gradient, the counter increments, and when it
reaches macro_batch the counter resets to 0 and one optimizer step applies
the accumulated gradient (without clearing it). -/
def microStep (macroBatch : Nat) (s : TrainState) (b : Nat) : TrainState :=
  let g0 := if s.batchCount = 0 then [] else s.grad
  let g := g0 ++ [b]
  let bc := s.batchCount + 1
  if macroBatch ≤ bc then
    TrainState.mk 0 g (s.steps ++ [g])
  else
    TrainState.mk bc g s.steps

/-- One epoch of the outer training loop: batch_count is set to 0 at the top
of the epoch, then the micro-batches are processed in order. -/
def runEpoch (m : Nat) (s : TrainState) (bs : List Nat) : TrainState :=
  bs.foldl (microStep m) (TrainState.mk 0 s.grad s.steps)

/-- The epoch loop of the do_train block. The source iterates
for epoch in range(3): the requested numTrainEpochs is accepted as an
argument but never used by the loop bound. Returns the number of epochs
executed together with the final state. -/
def trainLoop (numTrainEpochs m : Nat) (batchesOfEpoch : Nat → List Nat)
    (s : TrainState) : Nat × TrainState :=
  (List.range 3).foldl
    (fun acc e => (acc.1 + 1, runEpoch m acc.2 (batchesOfEpoch e))) (0, s)

/-- The maximal list of full macro-batch chunks of a micro-batch list. -/
def chunks (m : Nat) (bs : List Nat) : List (List Nat) :=
  if h : m = 0 ∨ bs.length < m then []
  else bs.take m :: chunks m (bs.drop m)
termination_by bs.length
decreasing_by
  simp only [List.length_drop]
  have h1 : ¬ m = 0 := fun hc => h (Or.inl hc)
  have h2 : ¬ List.length bs < m := fun hc => h (Or.inr hc)
  omega

/-- Gradient contents at the end of an epoch that started from a reset state
with prior gradient g: unchanged for an empty epoch, the last full chunk when
the batch count divides evenly, and the trailing partial chunk otherwise. -/
def epochGrad (m : Nat) (g : List Nat) (e : List Nat) : List Nat :=
  if e.isEmpty then g
  else if e.length % m = 0 then e.drop (e.length - m)
  else e.drop (m * (e.length / m))

/-!
## Evaluation aggregation (do_eval block)
-/

/-- Index of the first maximum of a list of log-probabilities
(torch.argmax along the last dimension). -/
def argmaxAux : Nat → Nat → Rat → List Rat → Nat
  | _, best, _, [] => best
  | i, best, bv, x :: xs =>
    if bv < x then argmaxAux (i + 1) i x xs else argmaxAux (i + 1) best bv xs

/-- torch.argmax of a log-probability vector (0 on an empty vector). -/
def argmax : List Rat → Nat
  | [] => 0
  | x :: xs => argmaxAux 1 0 x xs

/-- Number of examples of a batch whose gold label equals the argmax of the
log-probabilities: (label_id == prediction).sum().item(). -/
def countHits (labels : List Nat) (logProbs : List (List Rat)) : Nat :=
  (List.zip labels logProbs).countP (fun p => p.1 == argmax p.2)

/-- One evaluation batch: per-example gold labels and per-example
log-probability vectors (parallel lists from the external batcher). -/
structure EvalBatch where
  labels : List Nat
  logProbs : List (List Rat)

/-- Aggregation state of the do_eval loop. lastHits models the Python local
variable hits, which holds the hit count of the most recent batch; it is
unbound (none) before the first batch. -/
structure EvalState where
  totalSamples : Nat
  totalHits : Nat
  lastHits : Option Nat
deriving DecidableEq

/-- One iteration of the do_eval loop: accumulate the sample and hit counts
and remember the per-batch hit count of this batch. -/
def evalStep (s : EvalState) (b : EvalBatch) : EvalState :=
  let h := countHits b.labels b.logProbs
  EvalState.mk (s.totalSamples + b.labels.length) (s.totalHits + h) (some h)

/-- The whole do_eval aggregation over the dev batches. -/
def runEval (bs : List EvalBatch) : EvalState :=
  bs.foldl evalStep (EvalState.mk 0 0 none)

/-- The accuracy printed by the do_eval block. The source prints
hits / total_samples, i.e. the hit count of the LAST batch divided by the
total sample count; none models the NameError (no batch at all) or the
ZeroDivisionError (total_samples equal to 0). -/
def reportedAccuracy (s : EvalState) : Option Rat :=
  match s.lastHits with
  | none => none
  | some h => if s.totalSamples = 0 then none else some ((h : Rat) / (s.totalSamples : Rat))

/-- The accuracy the surrounding code accumulates for:
total_hits / total_samples. -/
def intendedAccuracy (s : EvalState) : Option Rat :=
  if s.totalSamples = 0 then none
  else some ((s.totalHits : Rat) / (s.totalSamples : Rat))

/-!
## Startup and checkpoint control flow (main block)
-/

/-- The part of bert_config.json that the startup check consults. -/
structure BertConfig where
  maxPositionEmbeddings : Int
deriving DecidableEq

/-- The ValueError message of the max_seq_length startup check. -/
def seqLenError : String :=
  "ValueError: max_seq_length parameter can not exceed the configured max_position_embeddings"

/-- The error raised when the trained classifier pickle is absent. -/
def fileNotFoundError : String :=
  "FileNotFoundError: bert_classifier.pickle"

/-- The ordered control flow of the main block after the config is loaded:
the max_seq_length check runs first; then either training (which reads the
train corpus and saves the classifier) or, unconditionally when do_train is
absent, the load of the trained classifier pickle; then the optional eval and
predict stages, which read the dev and test corpora. Returns the trace of
performed actions and the error that aborted the run, if any. -/
def mainFlow (cfg : BertConfig) (maxSeqLength : Int)
    (doTrain doEval doPredict : Bool) (classifierPickleExists : Bool) :
    List String × Option String :=
  if cfg.maxPositionEmbeddings < maxSeqLength then
    ([], some seqLenError)
  else
    let afterTrain : List String × Option String :=
      if doTrain then (["read_corpus_train", "save_classifier"], none)
      else if classifierPickleExists then
        (["open_classifier_pickle", "load_classifier"], none)
      else (["open_classifier_pickle"], some fileNotFoundError)
    match afterTrain with
    | (t, some e) => (t, some e)
    | (t, none) =>
      (t ++ (if doEval then ["read_corpus_dev"] else [])
         ++ (if doPredict then ["read_corpus_test"] else []), none)

/-!
## Helper lemmas
-/

theorem exceptBind_ok {α β : Type} (a : α) (f : α → Except String β) :
    (Except.ok a >>= f) = f a := rfl

theorem exceptBind_error {α β : Type} (e : String) (f : α → Except String β) :
    ((Except.error e : Except String α) >>= f) = Except.error e := rfl

/-- Every example yielded by a generator run satisfies any property that every
successful row handler result satisfies. -/
theorem runRows_yield_prop {f : Nat × Row → Option (Except String Example)}
    {P : Example → Prop}
    (hf : ∀ r ex, f r = some (.ok ex) → P ex) :
    ∀ l e, e ∈ (runRows f l).1 → P e := by
  intro l
  induction l with
  | nil => intro e he; simp [runRows] at he
  | cons r rest ih =>
    intro e he
    simp only [runRows] at he
    cases hfr : f r with
    | none => rw [hfr] at he; exact ih e he
    | some res =>
      cases res with
      | error msg => rw [hfr] at he; simp at he
      | ok ex =>
        rw [hfr] at he
        simp only [List.mem_cons] at he
        rcases he with he | he
        · exact he ▸ hf r ex hfr
        · exact ih e he

/-- The sample and hit totals of the eval loop are the sums of the per-batch
sizes and per-batch hit counts. -/
theorem evalStep_totals : ∀ (bs : List EvalBatch) (s : EvalState),
    (bs.foldl evalStep s).totalSamples
        = s.totalSamples + (bs.map (fun b => b.labels.length)).sum
    ∧ (bs.foldl evalStep s).totalHits
        = s.totalHits + (bs.map (fun b => countHits b.labels b.logProbs)).sum := by
  intro bs
  induction bs with
  | nil => intro s; simp
  | cons b rest ih =>
    intro s
    simp only [List.foldl_cons, List.map_cons, List.sum_cons]
    refine ⟨?_, ?_⟩
    · rw [(ih _).1]; simp [evalStep]; omega
    · rw [(ih _).2]; simp [evalStep]; omega

/-!
## Claim theorems
-/

/-- C8: Label-vocabulary round-trip: for every problem, every declared label l
looks up to an index i with the declared sequence at position i equal to l,
and the indices are exactly the positions 0..n-1 of the declared sequence. -/
theorem label_vocab_round_trip :
    ∀ name : String, problemRoundTripB (problem_labels name) = true := by
  intro name
  unfold problem_labels
  split_ifs <;> decide

/-- C6: Calling any reader variant with a partition outside its own supported
set yields the invalid-argument ValueError naming the unsupported partition,
with no example yielded; the message contains the partition name verbatim.
The xnli reader supports only train and dev, so for it any other partition -
test included - raises; the mnli, mrpc and cola readers support train, dev
and test. -/
theorem unknown_partition_raises (vocab : List (String × Nat)) (rows : List Row)
    (lang p : String) :
    (p ≠ "train" → p ≠ "dev" →
      xnli_reader vocab rows p lang = ([], some (noSuchPartition p)))
    ∧ (p ≠ "train" → p ≠ "dev" → p ≠ "test" →
      mnli_reader vocab rows p = ([], some (noSuchPartition p))
      ∧ mrpc_reader vocab rows p = ([], some (noSuchPartition p))
      ∧ cola_reader vocab rows p = ([], some (noSuchPartition p)))
    ∧ (∃ pre post, noSuchPartition p = pre ++ p ++ post) := by
  refine ⟨?_, ?_,
    ⟨"no such partition in this dataset: " ++ squote, squote, ?_⟩⟩
  · intro hx1 hx2
    simp [xnli_reader, hx1, hx2]
  · intro hx1 hx2 hx3
    refine ⟨?_, ?_, ?_⟩
    · simp [mnli_reader, hx1, hx2, hx3]
    · simp [mrpc_reader, hx1, hx2, hx3]
    · simp [cola_reader, hx1, hx2, hx3]
  · simp [noSuchPartition, pyRepr, String.append_assoc]

/-- Witness for C6 at the concrete partition bogus for every reader, and at
the partition test for the xnli reader, whose supported set excludes it. -/
theorem unknown_partition_raises_witness :
    ("bogus" : String) ≠ "train"
    ∧ xnli_reader [] [] "bogus" "zh" = ([], some (noSuchPartition "bogus"))
    ∧ xnli_reader [] [] "test" "zh" = ([], some (noSuchPartition "test"))
    ∧ mnli_reader [] [] "bogus" = ([], some (noSuchPartition "bogus"))
    ∧ mrpc_reader [] [] "bogus" = ([], some (noSuchPartition "bogus"))
    ∧ cola_reader [] [] "bogus" = ([], some (noSuchPartition "bogus")) :=
  ⟨by decide,
   (unknown_partition_raises [] [] "zh" "bogus").1 (by decide) (by decide),
   (unknown_partition_raises [] [] "zh" "test").1 (by decide) (by decide),
   ((unknown_partition_raises [] [] "zh" "bogus").2.1
      (by decide) (by decide) (by decide)).1,
   ((unknown_partition_raises [] [] "zh" "bogus").2.1
      (by decide) (by decide) (by decide)).2.1,
   ((unknown_partition_raises [] [] "zh" "bogus").2.1
      (by decide) (by decide) (by decide)).2.2⟩

/-- C7: Startup raises the invalid-configuration ValueError exactly when the
requested max_seq_length exceeds the configured max_position_embeddings, and
in the failing case the trace is empty: no corpus data was read. -/
theorem max_seq_length_check (cfg : BertConfig) (maxSeq : Int)
    (dT dE dP pE : Bool) :
    (cfg.maxPositionEmbeddings < maxSeq →
      mainFlow cfg maxSeq dT dE dP pE = ([], some seqLenError))
    ∧ (maxSeq ≤ cfg.maxPositionEmbeddings →
      (mainFlow cfg maxSeq dT dE dP pE).2 ≠ some seqLenError) := by
  constructor
  · intro h
    simp [mainFlow, h]
  · intro h
    have hn : ¬ cfg.maxPositionEmbeddings < maxSeq := not_lt.mpr h
    simp only [mainFlow, if_neg hn]
    cases dT
    · cases pE
      · simp
        decide
      · simp
    · simp

/-- Witness for C7: max_position_embeddings 128, max_seq_length 256. -/
theorem max_seq_length_check_witness :
    ((128 : Int) < 256)
    ∧ mainFlow (BertConfig.mk 128) 256 false true false false
        = ([], some seqLenError) :=
  ⟨by decide,
   (max_seq_length_check (BertConfig.mk 128) 256 false true false false).1 (by decide)⟩

/-- C10: When do_train is absent the main block opens the trained classifier
pickle unconditionally - whatever do_eval and do_predict are - and, when the
file is absent, aborts with the file-not-found error. -/
theorem load_classifier_when_not_training (cfg : BertConfig) (maxSeq : Int)
    (dE dP pE : Bool) (hcfg : ¬ cfg.maxPositionEmbeddings < maxSeq) :
    ("open_classifier_pickle" ∈ (mainFlow cfg maxSeq false dE dP pE).1)
    ∧ (pE = false →
        mainFlow cfg maxSeq false dE dP pE
          = (["open_classifier_pickle"], some fileNotFoundError)) := by
  constructor
  · simp only [mainFlow, if_neg hcfg]
    cases pE <;> simp
  · intro h
    subst h
    simp [mainFlow, if_neg hcfg]

/-- Witness for C10: no stage flag set at all, pickle absent. -/
theorem load_classifier_when_not_training_witness :
    (¬ (BertConfig.mk 128).maxPositionEmbeddings < 128)
    ∧ mainFlow (BertConfig.mk 128) 128 false false false false
        = (["open_classifier_pickle"], some fileNotFoundError) :=
  ⟨by decide,
   (load_classifier_when_not_training (BertConfig.mk 128) 128 false false false
      (by decide)).2 rfl⟩

/-- C2 counterexample: with num_train_epochs set to 1 the loop still executes
3 epochs, not min 1 3 = 1 as the claim states. -/
theorem epoch_count_counterexample :
    (trainLoop 1 1 (fun _ => [0]) (TrainState.mk 0 [] [])).1 = 3
    ∧ (trainLoop 1 1 (fun _ => [0]) (TrainState.mk 0 [] [])).1 ≠ min 1 3 := by
  constructor
  · rfl
  · decide

/-- C2 amended: the epoch loop of do_train executes exactly 3 epochs for
every requested num_train_epochs value: the bound of the loop is the
hardcoded range(3) and the requested count is ignored. -/
theorem epoch_count_always_three (n m : Nat) (batchesOfEpoch : Nat → List Nat)
    (s : TrainState) :
    (trainLoop n m batchesOfEpoch s).1 = 3 := rfl

/-- C1 (code bug): the do_eval block accumulates total_hits but prints
hits / total_samples, the hit count of the LAST batch over the total sample
count. At two one-example batches - a hit then a miss - the totals are
2 samples and 1 hit, yet the reported accuracy is 0 instead of 1/2; the
sample and hit totals themselves are the correct sums over all batches. -/
theorem eval_accuracy_uses_last_batch_hits :
    runEval [EvalBatch.mk [0] [[0, -1]], EvalBatch.mk [1] [[0, -1]]]
      = EvalState.mk 2 1 (some 0)
    ∧ reportedAccuracy (runEval [EvalBatch.mk [0] [[0, -1]], EvalBatch.mk [1] [[0, -1]]])
      = some 0
    ∧ intendedAccuracy (runEval [EvalBatch.mk [0] [[0, -1]], EvalBatch.mk [1] [[0, -1]]])
      = some (1 / 2 : Rat)
    ∧ reportedAccuracy (runEval [EvalBatch.mk [0] [[0, -1]], EvalBatch.mk [1] [[0, -1]]])
      ≠ intendedAccuracy (runEval [EvalBatch.mk [0] [[0, -1]], EvalBatch.mk [1] [[0, -1]]])
    ∧ (∀ bs : List EvalBatch,
        (runEval bs).totalSamples = (bs.map (fun b => b.labels.length)).sum
        ∧ (runEval bs).totalHits
            = (bs.map (fun b => countHits b.labels b.logProbs)).sum) := by
  have h : runEval [EvalBatch.mk [0] [[0, -1]], EvalBatch.mk [1] [[0, -1]]]
      = EvalState.mk 2 1 (some 0) := rfl
  refine ⟨h, ?_, ?_, ?_, ?_⟩
  · rw [h]; simp [reportedAccuracy]
  · rw [h]; simp [intendedAccuracy]
  · rw [h]; simp [reportedAccuracy, intendedAccuracy]
  · intro bs
    have := evalStep_totals bs (EvalState.mk 0 0 none)
    simpa [runEval] using this

/-- Helper equation: bind after an explicit pure on Except. -/
theorem exceptBind_pure {α β : Type} (a : α) (f : α → Except String β) :
    ((pure a : Except String α) >>= f) = f a := rfl

/-- A successful mnli test row always carries label index 0. -/
theorem mnli_test_row_placeholder (r : Nat × Row) (ex : Example) :
    mnli_row mnli_vocab "test" r = some (.ok ex) → ex.labelId = 0 := by
  rcases r with ⟨i, line⟩
  simp only [mnli_row]
  by_cases hi : i = 0
  · rw [if_pos hi]; intro h; cases h
  · rw [if_neg hi]
    intro h
    rw [Option.some_inj] at h
    cases h0 : pyGet line 0 with
    | error e => rw [h0, exceptBind_error] at h; cases h
    | ok rowId =>
      rw [h0, exceptBind_ok] at h
      cases h8 : pyGet line 8 with
      | error e => rw [h8, exceptBind_error] at h; cases h
      | ok textA =>
        rw [h8, exceptBind_ok] at h
        cases h9 : pyGet line 9 with
        | error e => rw [h9, exceptBind_error] at h; cases h
        | ok textB =>
          rw [h9, exceptBind_ok, if_pos trivial, exceptBind_ok] at h
          rw [show dictGet mnli_vocab "contradiction" = Except.ok 0 from rfl,
            exceptBind_ok] at h
          injection h with h2
          rw [← h2]

/-- A successful mrpc test row always carries label index 0. -/
theorem mrpc_test_row_placeholder (r : Nat × Row) (ex : Example) :
    mrpc_row mrpc_vocab "test" r = some (.ok ex) → ex.labelId = 0 := by
  rcases r with ⟨i, line⟩
  simp only [mrpc_row]
  by_cases hi : i = 0
  · rw [if_pos hi]; intro h; cases h
  · rw [if_neg hi]
    intro h
    rw [Option.some_inj] at h
    cases h3 : pyGet line 3 with
    | error e => rw [h3, exceptBind_error] at h; cases h
    | ok textA =>
      rw [h3, exceptBind_ok] at h
      cases h4 : pyGet line 4 with
      | error e => rw [h4, exceptBind_error] at h; cases h
      | ok textB =>
        rw [h4, exceptBind_ok, if_pos trivial, exceptBind_ok] at h
        rw [show dictGet mrpc_vocab "0" = Except.ok 0 from rfl,
          exceptBind_ok] at h
        injection h with h2
        rw [← h2]

/-- A successful cola test row always carries label index 0. -/
theorem cola_test_row_placeholder (r : Nat × Row) (ex : Example) :
    cola_row cola_vocab "test" r = some (.ok ex) → ex.labelId = 0 := by
  rcases r with ⟨i, line⟩
  simp only [cola_row]
  by_cases hi : i = 0
  · rw [if_pos ⟨trivial, hi⟩]; intro h; cases h
  · rw [if_neg (fun hc => hi hc.2), if_pos trivial]
    intro h
    rw [Option.some_inj] at h
    cases h1 : pyGet line 1 with
    | error e => rw [h1, exceptBind_error] at h; cases h
    | ok textA =>
      rw [h1, exceptBind_ok] at h
      rw [show dictGet cola_vocab "0" = Except.ok 0 from rfl,
        exceptBind_ok] at h
      injection h with h2
      rw [← h2]

/-- C4: Every example yielded from the test partition of the mnli, mrpc and
cola readers carries the label index of the fixed placeholder, which is the
first declared label of that corpus (contradiction for mnli, 0 for mrpc and
cola), regardless of the content of the rows. -/
theorem test_partition_placeholder_labels (rows : List Row) (e : Example) :
    (e ∈ (mnli_reader mnli_vocab rows "test").1 → e.labelId = 0)
    ∧ (e ∈ (mrpc_reader mrpc_vocab rows "test").1 → e.labelId = 0)
    ∧ (e ∈ (cola_reader cola_vocab rows "test").1 → e.labelId = 0)
    ∧ mnli_labels.get? 0 = some "contradiction"
    ∧ dictLookup mnli_vocab "contradiction" = some 0
    ∧ mrpc_labels.get? 0 = some "0"
    ∧ dictLookup mrpc_vocab "0" = some 0
    ∧ cola_labels.get? 0 = some "0"
    ∧ dictLookup cola_vocab "0" = some 0 := by
  refine ⟨?_, ?_, ?_, rfl, rfl, rfl, rfl, rfl, rfl⟩
  · intro he
    have hr : mnli_reader mnli_vocab rows "test"
        = runRows (mnli_row mnli_vocab "test") rows.enum := by
      simp only [mnli_reader]
      rw [if_pos (Or.inr (Or.inr trivial))]
    rw [hr] at he
    exact runRows_yield_prop mnli_test_row_placeholder rows.enum e he
  · intro he
    have hr : mrpc_reader mrpc_vocab rows "test"
        = runRows (mrpc_row mrpc_vocab "test") rows.enum := by
      simp only [mrpc_reader]
      rw [if_pos (Or.inr (Or.inr trivial))]
    rw [hr] at he
    exact runRows_yield_prop mrpc_test_row_placeholder rows.enum e he
  · intro he
    have hr : cola_reader cola_vocab rows "test"
        = runRows (cola_row cola_vocab "test") rows.enum := by
      simp only [cola_reader]
      rw [if_pos (Or.inr (Or.inr trivial))]
    rw [hr] at he
    exact runRows_yield_prop cola_test_row_placeholder rows.enum e he

/-- Witness for C4: a concrete two-row mnli test file. -/
theorem test_partition_placeholder_labels_witness :
    (Example.mk "test-id1" "ta" (some "tb") 0)
      ∈ (mnli_reader mnli_vocab
          [["h"], ["id1", "x", "x", "x", "x", "x", "x", "x", "ta", "tb"]] "test").1
    ∧ (Example.mk "test-id1" "ta" (some "tb") 0).labelId = 0 :=
  ⟨by decide,
   (test_partition_placeholder_labels
      [["h"], ["id1", "x", "x", "x", "x", "x", "x", "x", "ta", "tb"]]
      (Example.mk "test-id1" "ta" (some "tb") 0)).1 (by decide)⟩

/-- The remap of the xnli train branch is idempotent. -/
theorem canonXnliLabel_idem (s : String) :
    canonXnliLabel (canonXnliLabel s) = canonXnliLabel s := by
  unfold canonXnliLabel
  split_ifs <;> rfl

/-- Canonicalizing the label column of a row does not change how the xnli
train branch processes it: the remap already happens inside the branch. -/
theorem xnli_train_row_canon (vocab : List (String × Nat)) (i : Nat) (line : Row) :
    xnli_train_row vocab (i, canonTrainRow line) = xnli_train_row vocab (i, line) := by
  rcases line with _ | ⟨a, _ | ⟨b, _ | ⟨c, rest⟩⟩⟩
  · rfl
  · rfl
  · rfl
  · have hc : canonTrainRow (a :: b :: c :: rest)
        = a :: b :: canonXnliLabel c :: rest := rfl
    rw [hc]
    simp only [xnli_train_row]
    by_cases hi : i = 0
    · rw [if_pos hi, if_pos hi]
    · rw [if_neg hi, if_neg hi]
      simp only [show ∀ x, pyGet (a :: b :: x :: rest) 0 = Except.ok a from fun _ => rfl,
        show ∀ x, pyGet (a :: b :: x :: rest) 1 = Except.ok b from fun _ => rfl,
        show pyGet (a :: b :: canonXnliLabel c :: rest) 2
            = Except.ok (canonXnliLabel c) from rfl,
        show pyGet (a :: b :: c :: rest) 2 = Except.ok c from rfl,
        exceptBind_ok]
      rw [canonXnliLabel_idem]

/-- Canonicalizing the label column of every row leaves the whole xnli train
stream unchanged. -/
theorem runRows_xnli_canon (vocab : List (String × Nat)) :
    ∀ l : List (Nat × Row),
      runRows (xnli_train_row vocab) (l.map (fun p => (p.1, canonTrainRow p.2)))
        = runRows (xnli_train_row vocab) l := by
  intro l
  induction l with
  | nil => rfl
  | cons r rest ih =>
    rcases r with ⟨i, line⟩
    simp only [List.map_cons, runRows]
    rw [xnli_train_row_canon]
    cases hv : xnli_train_row vocab (i, line) with
    | none => exact ih
    | some res =>
      cases res with
      | error e => rfl
      | ok ex => rw [ih]

/-- C5 counterexample: the dev branch of the xnli reader does not remap the
source spelling contradictory. Two dev files identical up to the spelling of
the label behave differently: the source spelling aborts the stream with a
KeyError before yielding, while the canonical spelling yields the example -
under the claimed remap-before-lookup both would coincide. -/
theorem xnli_dev_no_remap_counterexample :
    xnli_reader xnli_vocab
      [["lang", "gold", "a", "b", "c", "d", "s1", "s2"],
       ["zh", "contradictory", "x", "x", "x", "x", "ta", "tb"]] "dev" "zh"
      = ([], some ("KeyError: " ++ pyRepr "contradictory"))
    ∧ xnli_reader xnli_vocab
      [["lang", "gold", "a", "b", "c", "d", "s1", "s2"],
       ["zh", "contradiction", "x", "x", "x", "x", "ta", "tb"]] "dev" "zh"
      = ([Example.mk "dev-1" "ta" (some "tb") 0], none)
    ∧ canonXnliLabel "contradictory" = "contradiction" :=
  ⟨rfl, rfl, rfl⟩

/-- C5 amended: the contradictory-to-contradiction remap is applied to every
row of the train partition - canonicalizing the label column of every train
row leaves the reader output unchanged - but not in the dev partition, where
the label is looked up unremapped and the source spelling fails with a
KeyError. -/
theorem xnli_remap_train_only (vocab : List (String × Nat)) (rows : List Row)
    (lang : String) :
    xnli_reader vocab (rows.map canonTrainRow) "train" lang
      = xnli_reader vocab rows "train" lang
    ∧ xnli_dev_row xnli_vocab "zh"
        (1, ["zh", "contradictory", "x", "x", "x", "x", "ta", "tb"])
      = some (.error ("KeyError: " ++ pyRepr "contradictory")) := by
  constructor
  · show runRows (xnli_train_row vocab) ((rows.map canonTrainRow).enum)
        = runRows (xnli_train_row vocab) rows.enum
    rw [List.enum_map]
    rw [show (Prod.map id canonTrainRow)
        = fun p : Nat × Row => (p.1, canonTrainRow p.2) from funext fun p => rfl]
    exact runRows_xnli_canon vocab rows.enum
  · rfl

/-!
## Training loop lemmas
-/

/-- Mid-cycle run: starting strictly inside a cycle and staying strictly below
macro_batch, the counter advances by one per micro-batch, the gradient
accumulates every micro-batch, and no optimizer step happens. -/
theorem foldl_micro_mid (m : Nat) : ∀ (bs : List Nat) (s : TrainState),
    1 ≤ s.batchCount → s.batchCount + bs.length < m →
    List.foldl (microStep m) s bs
      = TrainState.mk (s.batchCount + bs.length) (s.grad ++ bs) s.steps := by
  intro bs
  induction bs with
  | nil => intro s h1 h2; cases s; simp
  | cons b rest ih =>
    intro s h1 h2
    simp only [List.length_cons] at h2
    simp only [List.foldl_cons]
    have hbc : ¬ s.batchCount = 0 := by omega
    have hlt : ¬ m ≤ s.batchCount + 1 := by omega
    have hms : microStep m s b
        = TrainState.mk (s.batchCount + 1) (s.grad ++ [b]) s.steps := by
      simp only [microStep, if_neg hbc, if_neg hlt]
    rw [hms, ih (TrainState.mk (s.batchCount + 1) (s.grad ++ [b]) s.steps)
      (by simp) (by simp; omega)]
    simp only [TrainState.mk.injEq]
    refine ⟨by simp; omega, by simp, trivial⟩

/-- Completing a cycle: starting strictly inside a cycle with exactly enough
micro-batches left to reach macro_batch, the counter returns to 0 and exactly
one optimizer step is recorded, applying the whole accumulated gradient. -/
theorem foldl_micro_full (m : Nat) : ∀ (bs : List Nat) (s : TrainState),
    1 ≤ s.batchCount → s.batchCount + bs.length = m → bs ≠ [] →
    List.foldl (microStep m) s bs
      = TrainState.mk 0 (s.grad ++ bs) (s.steps ++ [s.grad ++ bs]) := by
  intro bs
  induction bs with
  | nil => intro s _ _ hne; exact absurd rfl hne
  | cons b rest ih =>
    intro s h1 h2 _
    simp only [List.length_cons] at h2
    simp only [List.foldl_cons]
    have hbc : ¬ s.batchCount = 0 := by omega
    cases rest with
    | nil =>
      have hm : m ≤ s.batchCount + 1 := by simp at h2; omega
      have hms : microStep m s b
          = TrainState.mk 0 (s.grad ++ [b]) (s.steps ++ [s.grad ++ [b]]) := by
        simp only [microStep, if_neg hbc, if_pos hm]
      simp only [List.foldl_nil]
      rw [hms]
    | cons b2 rest2 =>
      have hlt : ¬ m ≤ s.batchCount + 1 := by simp at h2; omega
      have hms : microStep m s b
          = TrainState.mk (s.batchCount + 1) (s.grad ++ [b]) s.steps := by
        simp only [microStep, if_neg hbc, if_neg hlt]
      rw [hms, ih (TrainState.mk (s.batchCount + 1) (s.grad ++ [b]) s.steps)
        (by simp) (by simp; simp at h2; omega) (by simp)]
      simp [List.append_assoc]

/-- A full cycle from a reset state: whatever gradient was pending is cleared
by the zero_grad of the first micro-batch, the cycle accumulates exactly its
own micro-batches, and one optimizer step applying exactly them is recorded. -/
theorem foldl_micro_cycle (m : Nat) (hm : 1 ≤ m) (g : List Nat)
    (st : List (List Nat)) (bs : List Nat) (hlen : bs.length = m) :
    List.foldl (microStep m) (TrainState.mk 0 g st) bs
      = TrainState.mk 0 bs (st ++ [bs]) := by
  cases bs with
  | nil => simp at hlen; omega
  | cons b rest =>
    simp only [List.length_cons] at hlen
    simp only [List.foldl_cons]
    by_cases h1 : m ≤ 1
    · have hm1 : m = 1 := by omega
      have hrest : rest = [] := List.length_eq_zero.mp (by omega)
      subst hrest
      have hms : microStep m (TrainState.mk 0 g st) b
          = TrainState.mk 0 [b] (st ++ [[b]]) := by
        simp [microStep, h1]
      simp only [List.foldl_nil]
      rw [hms]
    · have hms : microStep m (TrainState.mk 0 g st) b
          = TrainState.mk 1 [b] st := by
        simp [microStep, h1]
      rw [hms]
      have hne : rest ≠ [] := by
        intro hr
        rw [hr] at hlen
        simp at hlen
        omega
      rw [foldl_micro_full m rest (TrainState.mk 1 [b] st)
        (by simp) (by simp; omega) hne]
      simp

/-- A partial cycle from a reset state: fewer micro-batches than macro_batch
leave the counter mid-cycle, the gradient holding exactly the processed
micro-batches (or the stale pending gradient when there was none), and no
optimizer step recorded. -/
theorem foldl_micro_incomplete (m : Nat) (g : List Nat) (st : List (List Nat))
    (bs : List Nat) (hlen : bs.length < m) :
    List.foldl (microStep m) (TrainState.mk 0 g st) bs
      = TrainState.mk bs.length (if bs.isEmpty then g else bs) st := by
  cases bs with
  | nil => simp
  | cons b rest =>
    simp only [List.length_cons] at hlen
    simp only [List.foldl_cons]
    have h1 : ¬ m ≤ 1 := by omega
    have hms : microStep m (TrainState.mk 0 g st) b
        = TrainState.mk 1 [b] st := by
      simp [microStep, h1]
    rw [hms, foldl_micro_mid m rest (TrainState.mk 1 [b] st)
      (by simp) (by simp; omega)]
    simp only [TrainState.mk.injEq, List.isEmpty_cons, if_neg Bool.false_ne_true,
      List.length_cons, List.singleton_append]
    refine ⟨by omega, trivial, trivial⟩

/-- C3: From a reset state, processing macro_batch micro-batches returns the
counter to 0 with exactly one optimizer step recorded since the reset,
applying exactly the accumulated micro-batches; every proper prefix leaves
the counter equal to the number of processed micro-batches - so within
bounds - with the gradient strictly accumulated and no step; and one
micro-batch never takes a counter below macro_batch out of [0, macro_batch). -/
theorem gradient_accumulation_cycle (m : Nat) (hm : 1 ≤ m) (g : List Nat)
    (st : List (List Nat)) (bs : List Nat) (hlen : bs.length = m) :
    List.foldl (microStep m) (TrainState.mk 0 g st) bs
      = TrainState.mk 0 bs (st ++ [bs])
    ∧ (∀ k, k < m →
        List.foldl (microStep m) (TrainState.mk 0 g st) (bs.take k)
          = TrainState.mk k (if k = 0 then g else bs.take k) st)
    ∧ (∀ (s : TrainState) (b : Nat), s.batchCount < m →
        (microStep m s b).batchCount < m) := by
  refine ⟨foldl_micro_cycle m hm g st bs hlen, ?_, ?_⟩
  · intro k hk
    have hlt : (bs.take k).length < m := by
      rw [List.length_take]
      omega
    rw [foldl_micro_incomplete m g st (bs.take k) hlt]
    have hlen2 : (bs.take k).length = k := by
      rw [List.length_take]
      omega
    rw [hlen2]
    rcases Nat.eq_zero_or_pos k with hk0 | hk0
    · subst hk0
      simp
    · have hne : bs.take k ≠ [] := by
        intro hnil
        rw [hnil] at hlen2
        simp at hlen2
        omega
      rw [if_neg (by simpa [List.isEmpty_iff] using hne), if_neg (by omega)]
  · intro s b hbs
    by_cases h : m ≤ s.batchCount + 1
    · simp only [microStep, if_pos h]
      omega
    · simp only [microStep, if_neg h]
      omega

/-- Witness for C3 at macro_batch 2 and a concrete cycle. -/
theorem gradient_accumulation_cycle_witness :
    (1 ≤ 2) ∧ ([5, 6] : List Nat).length = 2
    ∧ List.foldl (microStep 2) (TrainState.mk 0 [9] []) [5, 6]
        = TrainState.mk 0 [5, 6] [[5, 6]] :=
  ⟨by decide, by decide,
   (gradient_accumulation_cycle 2 (by decide) [9] [] [5, 6] (by decide)).1⟩

/-- Unfolding equations of chunks as conditional rewrites. -/
theorem chunks_nil_of_lt (m : Nat) (bs : List Nat) (h : bs.length < m) :
    chunks m bs = [] := by
  rw [chunks, dif_pos (Or.inr h)]

/-- A list at least macro_batch long contributes its first macro_batch
elements as one chunk. -/
theorem chunks_cons_of_le (m : Nat) (hm : 1 ≤ m) (bs : List Nat)
    (h : m ≤ bs.length) :
    chunks m bs = bs.take m :: chunks m (bs.drop m) := by
  rw [chunks, dif_neg (by rintro (h0 | hlt) <;> omega)]

/-- The number of full chunks is the quotient of the length by macro_batch. -/
theorem chunks_length (m : Nat) (hm : 1 ≤ m) : ∀ bs : List Nat,
    (chunks m bs).length = bs.length / m := by
  suffices H : ∀ n (bs : List Nat), bs.length = n →
      (chunks m bs).length = bs.length / m by
    intro bs
    exact H bs.length bs rfl
  intro n
  induction n using Nat.strong_induction_on with
  | _ n IH =>
    intro bs hn
    subst hn
    by_cases hlt : bs.length < m
    · rw [chunks_nil_of_lt m bs hlt]
      simp [Nat.div_eq_of_lt hlt]
    · push_neg at hlt
      rw [chunks_cons_of_le m hm bs hlt]
      have hdl : (bs.drop m).length = bs.length - m := by simp
      have hrec := IH (bs.drop m).length (by rw [hdl]; omega) (bs.drop m) rfl
      simp only [List.length_cons, hrec, hdl]
      rw [Nat.div_eq_sub_div (by omega) hlt]

/-- The concatenation of all chunks is exactly the longest prefix of full
cycles: the trailing length-mod-macro_batch micro-batches are in no chunk. -/
theorem chunks_flatten (m : Nat) (hm : 1 ≤ m) : ∀ bs : List Nat,
    (chunks m bs).flatten = bs.take (m * (bs.length / m)) := by
  suffices H : ∀ n (bs : List Nat), bs.length = n →
      (chunks m bs).flatten = bs.take (m * (bs.length / m)) by
    intro bs
    exact H bs.length bs rfl
  intro n
  induction n using Nat.strong_induction_on with
  | _ n IH =>
    intro bs hn
    subst hn
    by_cases hlt : bs.length < m
    · rw [chunks_nil_of_lt m bs hlt]
      simp [Nat.div_eq_of_lt hlt]
    · push_neg at hlt
      rw [chunks_cons_of_le m hm bs hlt]
      have hdl : (bs.drop m).length = bs.length - m := by simp
      have hrec := IH (bs.drop m).length (by rw [hdl]; omega) (bs.drop m) rfl
      rw [List.flatten_cons, hrec, hdl]
      rw [Nat.div_eq_sub_div (by omega) hlt, Nat.mul_add, Nat.mul_one,
        Nat.add_comm (m * ((bs.length - m) / m)) m, List.take_add]

/-- Stepping the end-of-epoch gradient description one full cycle forward. -/
theorem epochGrad_step (m : Nat) (hm : 1 ≤ m) (g : List Nat) (e : List Nat)
    (hge : m ≤ e.length) :
    epochGrad m (e.take m) (e.drop m) = epochGrad m g e := by
  have hdl : (e.drop m).length = e.length - m := by simp
  have hene : ¬ e.isEmpty = true := by
    cases e with
    | nil => simp at hge; omega
    | cons b rest => simp
  by_cases hdE : (e.drop m).isEmpty = true
  · have hd0 : (e.drop m).length = 0 := by
      rw [List.isEmpty_iff.mp hdE]
      rfl
    have hlen : e.length = m := by omega
    unfold epochGrad
    rw [if_pos hdE, if_neg hene]
    rw [if_pos (by rw [hlen]; exact Nat.mod_self m)]
    rw [hlen, Nat.sub_self, List.drop_zero, ← hlen, List.take_length]
  · have hd1 : 1 ≤ (e.drop m).length := by
      cases h : e.drop m with
      | nil => rw [h] at hdE; simp at hdE
      | cons b rest => simp
    unfold epochGrad
    rw [if_neg hdE, if_neg hene]
    have hmodeq : e.length % m = (e.length - m) % m := Nat.mod_eq_sub_mod hge
    by_cases hr : (e.drop m).length % m = 0
    · rw [if_pos hr, if_pos (by rw [hmodeq, ← hdl]; exact hr)]
      rw [List.drop_drop]
      congr 1
      have hge2 : m ≤ e.length - m := by
        rcases Nat.lt_or_ge (e.length - m) m with hlt2 | hge2
        · exfalso
          rw [hdl] at hr hd1
          rw [Nat.mod_eq_of_lt hlt2] at hr
          omega
        · exact hge2
      rw [hdl]
      omega
    · rw [if_neg hr, if_neg (by rw [hmodeq, ← hdl]; exact hr)]
      rw [List.drop_drop]
      congr 1
      rw [hdl, Nat.div_eq_sub_div (by omega) hge]
      ring

/-- Closed form of one epoch from a reset state: the counter ends at the
length modulo macro_batch, the optimizer steps appended are exactly the full
chunks of the epoch's own micro-batches (independent of the pending gradient
g), and the final gradient is described by epochGrad. -/
theorem foldl_micro_epoch (m : Nat) (hm : 1 ≤ m) : ∀ (e g : List Nat)
    (st : List (List Nat)),
    List.foldl (microStep m) (TrainState.mk 0 g st) e
      = TrainState.mk (e.length % m) (epochGrad m g e) (st ++ chunks m e) := by
  suffices H : ∀ n (e : List Nat), e.length = n → ∀ (g : List Nat)
      (st : List (List Nat)),
      List.foldl (microStep m) (TrainState.mk 0 g st) e
        = TrainState.mk (e.length % m) (epochGrad m g e) (st ++ chunks m e) by
    intro e g st
    exact H e.length e rfl g st
  intro n
  induction n using Nat.strong_induction_on with
  | _ n IH =>
    intro e hn g st
    subst hn
    by_cases hlt : e.length < m
    · rw [foldl_micro_incomplete m g st e hlt, chunks_nil_of_lt m e hlt,
        List.append_nil, Nat.mod_eq_of_lt hlt]
      cases e with
      | nil => simp [epochGrad]
      | cons b rest =>
        have hl : rest.length + 1 < m := by simpa using hlt
        have hgoal : epochGrad m g (b :: rest) = b :: rest := by
          unfold epochGrad
          rw [if_neg (by simp : ¬ (b :: rest).isEmpty = true)]
          rw [if_neg (show ¬ (b :: rest).length % m = 0 by
            simp only [List.length_cons]
            rw [Nat.mod_eq_of_lt hl]
            omega)]
          rw [show (b :: rest).length / m = 0 from Nat.div_eq_of_lt hlt]
          rw [Nat.mul_zero, List.drop_zero]
        rw [hgoal]
        simp
    · push_neg at hlt
      conv_lhs => rw [← List.take_append_drop m e, List.foldl_append]
      rw [foldl_micro_cycle m hm g st (e.take m) (by rw [List.length_take]; omega)]
      have hdl : (e.drop m).length = e.length - m := by simp
      rw [IH (e.drop m).length (by rw [hdl]; omega) (e.drop m) rfl
        (e.take m) (st ++ [e.take m])]
      rw [chunks_cons_of_le m hm e hlt]
      simp only [TrainState.mk.injEq]
      refine ⟨?_, epochGrad_step m hm g e hlt, by simp⟩
      rw [hdl]
      exact (Nat.mod_eq_sub_mod hlt).symm

/-- C9: The epoch boundary. At the start of an epoch the counter is set to 0
without an optimizer step: the steps recorded by an epoch are exactly the
full macro-batch chunks of its own micro-batch list - e.length / m of them -
independent of any gradient pending from a previous epoch; the concatenation
of those chunks is exactly the first m * (e.length / m) micro-batches, so the
trailing incomplete cycle triggers no step; and the first micro-batch after a
reset clears the pending gradient (zero_grad), leaving exactly itself. -/
theorem epoch_boundary (m : Nat) (hm : 1 ≤ m) (s : TrainState) (e : List Nat) :
    (runEpoch m s e).steps = s.steps ++ chunks m e
    ∧ (runEpoch m s e).batchCount = e.length % m
    ∧ (chunks m e).length = e.length / m
    ∧ (chunks m e).flatten = e.take (m * (e.length / m))
    ∧ (∀ b, (microStep m (TrainState.mk 0 s.grad s.steps) b).grad = [b]) := by
  have h := foldl_micro_epoch m hm e s.grad s.steps
  refine ⟨?_, ?_, chunks_length m hm e, chunks_flatten m hm e, ?_⟩
  · show (List.foldl (microStep m) (TrainState.mk 0 s.grad s.steps) e).steps = _
    rw [h]
  · show (List.foldl (microStep m) (TrainState.mk 0 s.grad s.steps) e).batchCount = _
    rw [h]
  · intro b
    by_cases h1 : m ≤ 1 <;> simp [microStep, h1]

/-- Witness for C9 at macro_batch 2, a pending gradient from a previous
epoch, and a 3-micro-batch epoch whose last micro-batch is an incomplete
cycle. -/
theorem epoch_boundary_witness :
    (1 ≤ 2)
    ∧ (runEpoch 2 (TrainState.mk 1 [7] []) [1, 2, 3]).steps
        = (TrainState.mk 1 [7] []).steps ++ chunks 2 [1, 2, 3]
    ∧ (runEpoch 2 (TrainState.mk 1 [7] []) [1, 2, 3]).batchCount
        = ([1, 2, 3] : List Nat).length % 2 :=
  ⟨by decide,
   (epoch_boundary 2 (by decide) (TrainState.mk 1 [7] []) [1, 2, 3]).1,
   (epoch_boundary 2 (by decide) (TrainState.mk 1 [7] []) [1, 2, 3]).2.1⟩

end RunClassifier
